import Mathlib

/-!
Verification of the rate-limiting library: a token bucket with lazy
tick-based refill (`src/token-bucket/ratelimit.go`), a debt/slack
smoothing limiter (`src/uber-go-ratelimit/ratelimit.go`) and a mock
virtual clock (`src/uber-go-ratelimit/internal/clock/clock.go`).

Embedding conventions:
* `time.Time` and `time.Duration` are modelled as `Int` nanoseconds
  (64-bit overflow plays no role in the claims considered).
* Go's `/` on integers truncates toward zero: it is `Int.tdiv` here.
* `float64` arithmetic in the rate search is modelled by exact `ℚ`
  arithmetic; the `float64 → time.Duration` conversion truncates toward
  zero and is modelled by `ratTrunc`.
* Mutation of a struct behind a mutex becomes explicit state passing:
  each operation returns the new state together with its results.
* Go `panic` in a constructor is modelled as `Option.none`.
* The mock clock's timer heap (`container/heap` keyed on fire time) is
  modelled as a fire-time-sorted list of fire times; `heap.Pop` is the
  head of that list.
-/

/-- State of `tokenBucket.Bucket` (ratelimit.go lines 17-47); the mutex
and the clock reference are not part of the modelled state. -/
structure Bucket where
  startTime : Int
  capacity : Int
  quantum : Int
  fillInterval : Int
  availableTokens : Int
  latestTick : Int
deriving DecidableEq, Repr

/-- `infinityDuration` (ratelimit.go line 166). -/
def infinityDuration : Int := 0x7fffffffffffffff

/-- `Bucket.currentTick` (ratelimit.go lines 302-304):
`int64(now.Sub(tb.startTime) / tb.fillInterval)` with Go's truncated
division. -/
def currentTick (tb : Bucket) (now : Int) : Int :=
  (now - tb.startTime).tdiv tb.fillInterval

/-- `Bucket.adjustavailableTokens` (ratelimit.go lines 308-319).  Note
the early return when `availableTokens >= capacity` happens BEFORE
`latestTick` is updated. -/
def adjustavailableTokens (tb : Bucket) (tick : Int) : Bucket :=
  if tb.availableTokens ≥ tb.capacity then tb
  else
    let avail := tb.availableTokens + (tick - tb.latestTick) * tb.quantum
    let avail := if avail > tb.capacity then tb.capacity else avail
    { tb with availableTokens := avail, latestTick := tick }

/-- Result of the internal `take`: the updated bucket, the wait
duration, and the ok flag. -/
structure TakeResult where
  bucket : Bucket
  wait : Int
  ok : Bool
deriving DecidableEq, Repr

/-- `Bucket.take` (ratelimit.go lines 268-299). -/
def Bucket.take (tb : Bucket) (now count maxWait : Int) : TakeResult :=
  if count ≤ 0 then ⟨tb, 0, true⟩
  else
    let tick := currentTick tb now
    let tb1 := adjustavailableTokens tb tick
    let avail := tb1.availableTokens - count
    if avail ≥ 0 then ⟨{ tb1 with availableTokens := avail }, 0, true⟩
    else
      let endTick := tick + (-avail + tb1.quantum - 1).tdiv tb1.quantum
      let endTime := tb1.startTime + endTick * tb1.fillInterval
      let waitTime := endTime - now
      if waitTime > maxWait then ⟨tb1, 0, false⟩
      else ⟨{ tb1 with availableTokens := avail }, waitTime, true⟩

/-- `Bucket.takeAvailable` (ratelimit.go lines 217-231); returns the
updated bucket and the number of tokens removed. -/
def Bucket.takeAvailable (tb : Bucket) (now count : Int) : Bucket × Int :=
  if count ≤ 0 then (tb, 0)
  else
    let tb1 := adjustavailableTokens tb (currentTick tb now)
    if tb1.availableTokens ≤ 0 then (tb1, 0)
    else
      let count1 := if count > tb1.availableTokens then tb1.availableTokens else count
      ({ tb1 with availableTokens := tb1.availableTokens - count1 }, count1)

/-- `Bucket.available` (ratelimit.go lines 249-254); returns the
updated bucket and the signed token count. -/
def Bucket.available (tb : Bucket) (now : Int) : Bucket × Int :=
  let tb1 := adjustavailableTokens tb (currentTick tb now)
  (tb1, tb1.availableTokens)

/-- `Bucket.Take` (ratelimit.go lines 176-181): `take` with an infinite
`maxWait`, dropping the ok flag. -/
def Bucket.TakeOp (tb : Bucket) (now count : Int) : Bucket × Int :=
  let r := tb.take now count infinityDuration
  (r.bucket, r.wait)

/-- `Bucket.TakeMaxDuration` (ratelimit.go lines 197-201). -/
def Bucket.TakeMaxDuration (tb : Bucket) (now count maxWait : Int) : TakeResult :=
  tb.take now count maxWait

/-- `NewBucketWithQuantumAndClock` (ratelimit.go lines 113-138); the
three `panic`s on non-positive arguments are modelled as `none`; `now`
is the clock's current time. -/
def NewBucketWithQuantumAndClock (fillInterval capacity quantum now : Int) : Option Bucket :=
  if fillInterval ≤ 0 then none
  else if capacity ≤ 0 then none
  else if quantum ≤ 0 then none
  else some
    { startTime := now
      latestTick := 0
      fillInterval := fillInterval
      capacity := capacity
      quantum := quantum
      availableTokens := capacity }

/-- `rateMargin` (ratelimit.go line 60). -/
def rateMargin : ℚ := 1 / 100

/-- `nextQuantum` (ratelimit.go lines 96-104); the quantum stays in ℕ
(it starts at 1 and only grows). -/
def nextQuantum (q : ℕ) : ℕ :=
  let q1 := q * 11 / 10
  if q1 = q then q1 + 1 else q1

/-- Go's conversion of a `float64` to `time.Duration` truncates toward
zero; on the exact-rational model this is truncation of a rational,
i.e. the numerator divided by the denominator rounding toward zero. -/
def ratTrunc (x : ℚ) : Int :=
  x.num.tdiv (x.den : Int)

/-- `math.Abs` on the exact-rational model of `float64`. -/
def ratAbs (x : ℚ) : ℚ :=
  if x < 0 then -x else x

/-- `Bucket.Rate` (ratelimit.go lines 262-265) on the exact-rational
model of `float64`. -/
def Bucket.Rate (tb : Bucket) : ℚ :=
  1000000000 * (tb.quantum : ℚ) / (tb.fillInterval : ℚ)

/-- The search loop of `NewBucketWithRateAndClock` (ratelimit.go lines
76-87): starting from the given quantum, while `quantum < 2^50` compute
`fillInterval = 1e9 * quantum / rate` truncated to a duration, skip
non-positive intervals, and accept `(fillInterval, quantum)` as soon as
`|Rate - rate| / rate ≤ rateMargin`; return `none` (the Go code panics)
when the bound is reached.  Termination is by explicit fuel; since the
quantum strictly grows each round (`nextQuantum_lt`), fuel `2 ^ 50` is
never exhausted before the loop's own bound triggers
(`rateSearchLoop_fuel_irrel`). -/
def rateSearchLoop (rate : ℚ) : ℕ → ℕ → Option (Int × ℕ)
  | 0, _ => none
  | fuel + 1, q =>
    if q < 2 ^ 50 then
      let fi := ratTrunc (1000000000 * (q : ℚ) / rate)
      if fi ≤ 0 then rateSearchLoop rate fuel (nextQuantum q)
      else if ratAbs (1000000000 * (q : ℚ) / (fi : ℚ) - rate) / rate ≤ rateMargin then some (fi, q)
      else rateSearchLoop rate fuel (nextQuantum q)
    else none

/-- `NewBucketWithRateAndClock` (ratelimit.go lines 69-91): build the
quantum-1 bucket, then run the search from `quantum = 1`; the final
`panic` is modelled as `none`. -/
def NewBucketWithRateAndClock (rate : ℚ) (capacity now : Int) : Option Bucket :=
  match NewBucketWithQuantumAndClock 1 capacity 1 now with
  | none => none
  | some tb =>
    match rateSearchLoop rate (2 ^ 50) 1 with
    | none => none
    | some (fi, q) => some { tb with fillInterval := fi, quantum := (q : Int) }

/-- State of the smoothing `limiter`
(uber-go-ratelimit/ratelimit.go lines 35-42); `last = none` models the
zero `time.Time`. -/
structure Limiter where
  last : Option Int
  sleepFor : Int
  perRequest : Int
  maxSlack : Int
deriving DecidableEq, Repr

/-- `ratelimit.New` (uber-go-ratelimit/ratelimit.go lines 48-60),
before options are applied: `perRequest = time.Second / rate` and
`maxSlack = -10 * time.Second / rate` with Go's truncated integer
division; `rate = 0` makes both divisions panic (modelled as `none`).
No other validation of `rate` is performed. -/
def newLimiter (rate : Int) : Option Limiter :=
  if rate = 0 then none
  else some
    { last := none
      sleepFor := 0
      perRequest := (1000000000 : Int).tdiv rate
      maxSlack := ((-10 : Int) * 1000000000).tdiv rate }

/-- `withoutSlackOption` (uber-go-ratelimit/ratelimit.go lines 74-76). -/
def withoutSlackOption (l : Limiter) : Limiter :=
  { l with maxSlack := 0 }

/-- Result of `limiter.Take`: the updated limiter, the returned
timestamp, and the duration passed to `clock.Sleep` (0 when no sleep
happened). -/
structure LTakeResult where
  limiter : Limiter
  ret : Int
  slept : Int
deriving DecidableEq, Repr

/-- `limiter.Take` (uber-go-ratelimit/ratelimit.go lines 80-115), with
the clock reading `now` passed explicitly. -/
def limiterTake (t : Limiter) (now : Int) : LTakeResult :=
  match t.last with
  | none => ⟨{ t with last := some now }, now, 0⟩
  | some last =>
    let s1 := t.sleepFor + (t.perRequest - (now - last))
    let s2 := if s1 < t.maxSlack then t.maxSlack else s1
    if s2 > 0 then
      ⟨{ t with last := some (now + s2), sleepFor := 0 }, now + s2, s2⟩
    else
      ⟨{ t with last := some now, sleepFor := s2 }, now, 0⟩

/-- A sequence of `Take` calls at the given clock readings. -/
def limiterRun (t : Limiter) : List Int → Limiter
  | [] => t
  | now :: rest => limiterRun (limiterTake t now).limiter rest

/-- State of `clock.Mock`
(uber-go-ratelimit/internal/clock/clock.go lines 12-16): the current
time and the pending timers' fire times, kept sorted (the heap order). -/
structure Mock where
  now : Int
  timers : List Int
deriving DecidableEq, Repr

/-- The loop of `Mock.Add` (clock.go lines 29-35): while timers remain
and `now` is before `end`, pop the earliest timer and set `now` to its
fire time.  Returns the final `now`, the remaining timers and the list
of popped fire times in pop order. -/
def mockAddLoop (endT : Int) : Int → List Int → Int × List Int × List Int
  | now, [] => (now, [], [])
  | now, t :: rest =>
    if now < endT then
      let r := mockAddLoop endT t rest
      (r.1, r.2.1, t :: r.2.2)
    else (now, t :: rest, [])

/-- `Mock.Add` (clock.go lines 25-41): computes `end = now + d`, runs
the pop loop, and returns the final clock state together with the
popped fire times.  The code never assigns `now = end` after the loop. -/
def mockAdd (m : Mock) (d : Int) : Mock × List Int :=
  let r := mockAddLoop (m.now + d) m.now m.timers
  (⟨r.1, r.2.1⟩, r.2.2)

/-- The bucket operations a caller can perform, each carrying the clock
reading at which it runs (`Wait`/`WaitMaxDuration` mutate the bucket
exactly as `Take`/`TakeMaxDuration` and then sleep, which does not touch
the bucket). -/
inductive BOp where
  | takeOp (now count : Int)
  | takeMax (now count maxWait : Int)
  | takeAvail (now count : Int)
  | waitOp (now count : Int)
  | waitMax (now count maxWait : Int)
  | availOp (now : Int)

/-- The bucket-state effect of one operation. -/
def applyBOp (tb : Bucket) : BOp → Bucket
  | .takeOp now count => (tb.TakeOp now count).1
  | .takeMax now count maxWait => (tb.TakeMaxDuration now count maxWait).bucket
  | .takeAvail now count => (tb.takeAvailable now count).1
  | .waitOp now count => (tb.TakeOp now count).1
  | .waitMax now count maxWait => (tb.TakeMaxDuration now count maxWait).bucket
  | .availOp now => (tb.available now).1

/-- The bucket-state effect of a sequence of operations. -/
def applyBOps (tb : Bucket) (ops : List BOp) : Bucket :=
  ops.foldl applyBOp tb

/-! ### Helper lemmas -/

/-- The quantum search's growth rule strictly increases the quantum. -/
theorem nextQuantum_lt (q : ℕ) : q < nextQuantum q := by
  unfold nextQuantum
  have h2 : q ≤ q * 11 / 10 := by
    calc q = q * 10 / 10 := by omega
    _ ≤ q * 11 / 10 := Nat.div_le_div_right (by omega)
  by_cases h3 : q * 11 / 10 = q
  · simp [h3]
  · simp [h3]; omega

/-- Any fuel of at least `2 ^ 50 - q` rounds gives the same search
result: the fuel parameter is irrelevant for the actual runs of the
loop, which always start at `q = 1` with fuel `2 ^ 50`. -/
theorem rateSearchLoop_fuel_irrel (rate : ℚ) :
    ∀ (fuel fuel' q : ℕ), 2 ^ 50 - q ≤ fuel → 2 ^ 50 - q ≤ fuel' →
    rateSearchLoop rate fuel q = rateSearchLoop rate fuel' q := by
  intro fuel
  induction fuel with
  | zero =>
    intro fuel' q h h'
    have hq : 2 ^ 50 ≤ q := by omega
    cases fuel' with
    | zero => rfl
    | succ f' =>
      simp only [rateSearchLoop]
      split
      · omega
      · rfl
  | succ f ih =>
    intro fuel' q h h'
    cases fuel' with
    | zero =>
      have hq : 2 ^ 50 ≤ q := by omega
      simp only [rateSearchLoop]
      split
      · omega
      · rfl
    | succ f' =>
      simp only [rateSearchLoop]
      have hnq := nextQuantum_lt q
      split
      · split
        · exact ih f' (nextQuantum q) (by omega) (by omega)
        · split
          · rfl
          · exact ih f' (nextQuantum q) (by omega) (by omega)
      · rfl

/-- Whatever pair the search loop returns passed its own acceptance
test: the fill interval is positive and the realized rate is within the
1% relative margin of the requested rate. -/
theorem rateSearchLoop_sound (rate : ℚ) :
    ∀ (fuel q : ℕ) (fi : Int) (q' : ℕ),
    rateSearchLoop rate fuel q = some (fi, q') →
    0 < fi ∧ ratAbs (1000000000 * (q' : ℚ) / (fi : ℚ) - rate) / rate ≤ rateMargin := by
  intro fuel
  induction fuel with
  | zero => intro q fi q' h; simp [rateSearchLoop] at h
  | succ f ih =>
    intro q fi q' h
    simp only [rateSearchLoop] at h
    split at h
    · split at h
      · exact ih _ _ _ h
      · split at h
        · rename_i hfi hacc
          simp only [Option.some.injEq, Prod.mk.injEq] at h
          obtain ⟨h1, h2⟩ := h
          subst h1; subst h2
          exact ⟨by omega, hacc⟩
        · exact ih _ _ _ h
    · exact Option.noConfusion h


/-- A second refill adjustment at the same tick changes nothing: the
lazy refill is idempotent for a fixed clock reading. -/
theorem adjust_idem (tb : Bucket) (tick : Int) :
    adjustavailableTokens (adjustavailableTokens tb tick) tick = adjustavailableTokens tb tick := by
  simp only [adjustavailableTokens]
  split_ifs <;> simp_all [Bucket.mk.injEq]
  all_goals omega

/-- The refill adjustment only touches `availableTokens` and
`latestTick`. -/
theorem adjust_fields (tb : Bucket) (tick : Int) :
    (adjustavailableTokens tb tick).startTime = tb.startTime ∧
    (adjustavailableTokens tb tick).capacity = tb.capacity ∧
    (adjustavailableTokens tb tick).quantum = tb.quantum ∧
    (adjustavailableTokens tb tick).fillInterval = tb.fillInterval := by
  simp only [adjustavailableTokens]
  split_ifs <;> simp

/-- The refill adjustment preserves the capacity bound. -/
theorem adjust_inv (tb : Bucket) (tick : Int) (h : tb.availableTokens ≤ tb.capacity) :
    (adjustavailableTokens tb tick).availableTokens ≤ (adjustavailableTokens tb tick).capacity := by
  simp only [adjustavailableTokens]
  split_ifs <;> simp_all

/-- `take` preserves the capacity bound. -/
theorem take_inv (tb : Bucket) (now count maxWait : Int)
    (h : tb.availableTokens ≤ tb.capacity) :
    (tb.take now count maxWait).bucket.availableTokens ≤
      (tb.take now count maxWait).bucket.capacity := by
  have ha := adjust_inv tb (currentTick tb now) h
  simp only [Bucket.take]
  split_ifs <;> simp_all
  all_goals omega

/-- `takeAvailable` preserves the capacity bound. -/
theorem takeAvailable_inv (tb : Bucket) (now count : Int)
    (h : tb.availableTokens ≤ tb.capacity) :
    (tb.takeAvailable now count).1.availableTokens ≤
      (tb.takeAvailable now count).1.capacity := by
  have ha := adjust_inv tb (currentTick tb now) h
  simp only [Bucket.takeAvailable]
  split_ifs <;> simp_all
  all_goals omega

/-- Every bucket operation preserves the capacity bound. -/
theorem applyBOp_inv (tb : Bucket) (op : BOp)
    (h : tb.availableTokens ≤ tb.capacity) :
    (applyBOp tb op).availableTokens ≤ (applyBOp tb op).capacity := by
  cases op with
  | takeOp now count => exact take_inv tb now count infinityDuration h
  | takeMax now count maxWait => exact take_inv tb now count maxWait h
  | takeAvail now count => exact takeAvailable_inv tb now count h
  | waitOp now count => exact take_inv tb now count infinityDuration h
  | waitMax now count maxWait => exact take_inv tb now count maxWait h
  | availOp now => exact adjust_inv tb (currentTick tb now) h

/-- Any sequence of bucket operations preserves the capacity bound. -/
theorem applyBOps_inv (ops : List BOp) :
    ∀ (tb : Bucket), tb.availableTokens ≤ tb.capacity →
    (applyBOps tb ops).availableTokens ≤ (applyBOps tb ops).capacity := by
  induction ops with
  | nil => intro tb h; exact h
  | cons op rest ih =>
    intro tb h
    exact ih (applyBOp tb op) (applyBOp_inv tb op h)

/-- One completed `Take` preserves `maxSlack ≤ 0` and
`maxSlack ≤ sleepFor`, and a `Take` that slept resets `sleepFor` to 0. -/
theorem limiterTake_inv (t : Limiter) (now : Int)
    (h0 : t.maxSlack ≤ 0) (h1 : t.maxSlack ≤ t.sleepFor) :
    (limiterTake t now).limiter.maxSlack ≤ 0 ∧
    (limiterTake t now).limiter.maxSlack ≤ (limiterTake t now).limiter.sleepFor ∧
    ((limiterTake t now).slept > 0 → (limiterTake t now).limiter.sleepFor = 0) := by
  rcases t with ⟨last, sleepFor, perRequest, maxSlack⟩
  simp only at h0 h1
  cases last with
  | none => refine ⟨h0, h1, ?_⟩; simp [limiterTake]
  | some l =>
    simp only [limiterTake]
    split_ifs <;> simp_all

/-- Any sequence of `Take` calls preserves `maxSlack ≤ 0` and
`maxSlack ≤ sleepFor`. -/
theorem limiterRun_inv (nows : List Int) :
    ∀ (t : Limiter), t.maxSlack ≤ 0 → t.maxSlack ≤ t.sleepFor →
    (limiterRun t nows).maxSlack ≤ 0 ∧
    (limiterRun t nows).maxSlack ≤ (limiterRun t nows).sleepFor := by
  induction nows with
  | nil => intro t h0 h1; exact ⟨h0, h1⟩
  | cons now rest ih =>
    intro t h0 h1
    have h := limiterTake_inv t now h0 h1
    exact ih (limiterTake t now).limiter h.1 h.2.1

/-- Structure of the `Mock.Add` pop loop: the popped fire times are a
prefix of the pending list; the final time is the last popped fire time
(the initial time when nothing was popped); the first pop requires the
initial time to be before the target, each further pop requires the
previously popped fire time to be before the target, and when timers
remain unpopped the reached time is not before the target. -/
theorem mockAddLoop_spec (endT : Int) :
    ∀ (ts : List Int) (now : Int),
    ts = (mockAddLoop endT now ts).2.2 ++ (mockAddLoop endT now ts).2.1 ∧
    (mockAddLoop endT now ts).1 = ((mockAddLoop endT now ts).2.2).getLastD now ∧
    ((mockAddLoop endT now ts).2.2 ≠ [] → now < endT) ∧
    (∀ x ∈ ((mockAddLoop endT now ts).2.2).dropLast, x < endT) ∧
    ((mockAddLoop endT now ts).2.1 ≠ [] → ¬ (mockAddLoop endT now ts).1 < endT) := by
  intro ts
  induction ts with
  | nil => intro now; simp [mockAddLoop]
  | cons t rest ih =>
    intro now
    simp only [mockAddLoop]
    split_ifs with hlt
    · obtain ⟨ih1, ih2, ih3, ih4, ih5⟩ := ih t
      refine ⟨?_, ?_, fun _ => hlt, ?_, ih5⟩
      · simpa using ih1
      · simp only
        rw [List.getLastD_cons]
        exact ih2
      · intro x hx
        simp only at hx
        rcases hmem : (mockAddLoop endT t rest).2.2 with _ | ⟨y, l⟩
        · rw [hmem] at hx
          simp at hx
        · rw [hmem] at hx
          rw [List.dropLast_cons₂, List.mem_cons] at hx
          rcases hx with rfl | hx
          · exact ih3 (by simp [hmem])
          · apply ih4 x
            rw [hmem]
            exact hx
    · exact ⟨by simp, by simp, by simp, by simp, fun _ => hlt⟩

/-- `currentTick` only reads `startTime` and `fillInterval`, which the
refill adjustment never changes. -/
theorem currentTick_adjust (tb : Bucket) (tick now : Int) :
    currentTick (adjustavailableTokens tb tick) now = currentTick tb now := by
  unfold currentTick
  rw [(adjust_fields tb tick).1, (adjust_fields tb tick).2.2.2]

/-- `currentTick` ignores the `availableTokens` field. -/
theorem currentTick_update (tb : Bucket) (v now : Int) :
    currentTick { tb with availableTokens := v } now = currentTick tb now := rfl

/-- When the bucket is strictly below capacity, or its recorded tick is
already current, the refill adjustment brings `latestTick` up to date.
(When the bucket is full with a stale `latestTick` the early return
skips this update — the root of the stale-tick anomalies below.) -/
theorem adjust_latestTick (tb : Bucket) (tick : Int)
    (h : tb.availableTokens < tb.capacity ∨ tb.latestTick = tick) :
    (adjustavailableTokens tb tick).latestTick = tick := by
  unfold adjustavailableTokens
  split_ifs <;> simp_all
  omega

/-! ### Claim theorems -/

/-- C1 (counterexample): a failing `TakeMaxDuration` does NOT leave the
internal state byte-for-byte unchanged.  From the freshly constructed
bucket `NewBucket(1ns, 10)` at time 0, draining it with
`TakeAvailable(10)` gives the state `⟨0, 10, 1, 1, 0, 0⟩`; calling
`TakeMaxDuration(100, 0)` at time 2 returns `ok = false`, yet
`availableTokens` and `latestTick` have both changed from 0 to 2,
because the refill adjustment runs and is committed before the
rejection check. -/
theorem C1_counterexample :
    NewBucketWithQuantumAndClock 1 10 1 0 = some ⟨0, 10, 1, 1, 10, 0⟩ ∧
    (Bucket.takeAvailable ⟨0, 10, 1, 1, 10, 0⟩ 0 10).1 = ⟨0, 10, 1, 1, 0, 0⟩ ∧
    (Bucket.TakeMaxDuration ⟨0, 10, 1, 1, 0, 0⟩ 2 100 0).ok = false ∧
    ((Bucket.TakeMaxDuration ⟨0, 10, 1, 1, 0, 0⟩ 2 100 0).bucket.availableTokens,
      (Bucket.TakeMaxDuration ⟨0, 10, 1, 1, 0, 0⟩ 2 100 0).bucket.latestTick) ≠
      ((0 : Int), (0 : Int)) := by decide

/-- C1 (amended): a `TakeMaxDuration` that returns `ok = false` returns
a zero wait, commits no token consumption, and leaves the bucket in
exactly the state produced by the lazy refill adjustment at the current
tick — so the observable balance `available(now)` is unchanged, though
`availableTokens`/`latestTick` themselves may have absorbed the elapsed
ticks. -/
theorem C1_amended (tb : Bucket) (now count maxWait : Int)
    (h : (tb.TakeMaxDuration now count maxWait).ok = false) :
    (tb.TakeMaxDuration now count maxWait).wait = 0 ∧
    (tb.TakeMaxDuration now count maxWait).bucket =
      adjustavailableTokens tb (currentTick tb now) ∧
    ((tb.TakeMaxDuration now count maxWait).bucket.available now).2 = (tb.available now).2 := by
  simp only [Bucket.TakeMaxDuration, Bucket.take] at h ⊢
  split_ifs at h ⊢ <;> simp_all
  simp [Bucket.available, currentTick_adjust, adjust_idem]

/-- C1 (witness): the amended theorem applied to the counterexample's
concrete failing call. -/
theorem C1_witness :
    (Bucket.TakeMaxDuration ⟨0, 10, 1, 1, 0, 0⟩ 2 100 0).ok = false ∧
    (Bucket.TakeMaxDuration ⟨0, 10, 1, 1, 0, 0⟩ 2 100 0).bucket =
      adjustavailableTokens ⟨0, 10, 1, 1, 0, 0⟩ (currentTick ⟨0, 10, 1, 1, 0, 0⟩ 2) :=
  ⟨by decide, (C1_amended ⟨0, 10, 1, 1, 0, 0⟩ 2 100 0 (by decide)).2.1⟩

/-- C3 (counterexample): `Take(count)` with `count ≤ Available()` does
NOT always decrease `Available()` by `count`.  The freshly constructed
bucket `NewBucket(1ns, 10)` at time 0 is full; at time 5 (five elapsed
fill intervals) `Available()` returns 10 but, because the bucket is
full, the early return leaves `latestTick` stale at 0.  `Take(3)` then
returns a zero wait, but the following `Available()` returns 10 again
(the five stale ticks are re-credited), not `10 - 3`. -/
theorem C3_counterexample :
    NewBucketWithQuantumAndClock 1 10 1 0 = some ⟨0, 10, 1, 1, 10, 0⟩ ∧
    (0 : Int) < 3 ∧ (0 : Int) ≤ 5 ∧
    (3 : Int) ≤ (Bucket.available ⟨0, 10, 1, 1, 10, 0⟩ 5).2 ∧
    (Bucket.TakeOp (Bucket.available ⟨0, 10, 1, 1, 10, 0⟩ 5).1 5 3).2 = 0 ∧
    ((Bucket.TakeOp (Bucket.available ⟨0, 10, 1, 1, 10, 0⟩ 5).1 5 3).1.available 5).2 ≠
      (Bucket.available ⟨0, 10, 1, 1, 10, 0⟩ 5).2 - 3 := by decide

/-- C3 (amended): `Take(count)` with `0 < count ≤ Available()` returns a
zero wait and decreases `Available()` by exactly `count`, PROVIDED the
bucket is not simultaneously full and behind on its tick accounting:
either `availableTokens < capacity`, or `latestTick` is already the
current tick.  (The counterexample shows the proviso is necessary: a
full bucket with elapsed ticks re-credits the stale ticks after the
take.) -/
theorem C3_amended (tb : Bucket) (now count : Int)
    (hnow : tb.startTime ≤ now)
    (hc : 0 < count)
    (hinv : tb.availableTokens ≤ tb.capacity)
    (hfresh : tb.availableTokens < tb.capacity ∨ tb.latestTick = currentTick tb now)
    (hle : count ≤ (tb.available now).2) :
    ((tb.available now).1.TakeOp now count).2 = 0 ∧
    (((tb.available now).1.TakeOp now count).1.available now).2 = (tb.available now).2 - count := by
  simp only [Bucket.available] at hle ⊢
  simp only [Bucket.TakeOp, Bucket.take, currentTick_adjust, adjust_idem]
  have hlt := adjust_latestTick tb (currentTick tb now) hfresh
  have hinv2 := adjust_inv tb (currentTick tb now) hinv
  set X := adjustavailableTokens tb (currentTick tb now) with hX
  rw [if_neg (by omega : ¬ count ≤ 0), if_pos (by omega : X.availableTokens - count ≥ 0)]
  refine ⟨rfl, ?_⟩
  simp only [Bucket.available]
  have hctX : currentTick X now = currentTick tb now := by
    rw [hX]; exact currentTick_adjust tb (currentTick tb now) now
  rw [currentTick_update, hctX]
  unfold adjustavailableTokens
  simp only [hlt, sub_self, zero_mul, add_zero]
  split_ifs <;> simp_all <;> omega

/-- C3 (witness): the amended theorem on a drained bucket: from
`⟨0, 10, 1, 1, 4, 3⟩` (4 tokens, tick current at time 3) taking 4 at
time 3 gives zero wait and leaves `Available() = 0`. -/
theorem C3_witness :
    ((⟨0, 10, 1, 1, 4, 3⟩ : Bucket).startTime ≤ 3 ∧ (0 : Int) < 4 ∧
      (⟨0, 10, 1, 1, 4, 3⟩ : Bucket).availableTokens ≤ (⟨0, 10, 1, 1, 4, 3⟩ : Bucket).capacity ∧
      (4 : Int) ≤ (Bucket.available ⟨0, 10, 1, 1, 4, 3⟩ 3).2) ∧
    (Bucket.TakeOp (Bucket.available ⟨0, 10, 1, 1, 4, 3⟩ 3).1 3 4).2 = 0 ∧
    ((Bucket.TakeOp (Bucket.available ⟨0, 10, 1, 1, 4, 3⟩ 3).1 3 4).1.available 3).2 =
      (Bucket.available ⟨0, 10, 1, 1, 4, 3⟩ 3).2 - 4 :=
  ⟨⟨by decide, by decide, by decide, by decide⟩,
    C3_amended ⟨0, 10, 1, 1, 4, 3⟩ 3 4 (by decide) (by decide) (by decide)
      (Or.inl (by decide)) (by decide)⟩

/-- C6: after draining to exactly zero at the current tick, advancing
the clock by `N` whole fill intervals makes `Available()` return
`min(N * quantum, capacity)`: the balance grows by one quantum per
elapsed fill interval, clamped at capacity. -/
theorem C6_refill_clamped (tb : Bucket) (now0 N : Int)
    (hfi : 0 < tb.fillInterval) (hcap : 0 < tb.capacity)
    (hnow : tb.startTime ≤ now0) (hA : tb.availableTokens = 0)
    (hT : tb.latestTick = currentTick tb now0) (hN : 1 ≤ N) :
    (tb.available (now0 + N * tb.fillInterval)).2 = min (N * tb.quantum) tb.capacity := by
  have hNfi : 0 ≤ N * tb.fillInterval := mul_nonneg (by omega) (by omega)
  have htick : currentTick tb (now0 + N * tb.fillInterval) = currentTick tb now0 + N := by
    unfold currentTick
    rw [Int.tdiv_eq_ediv (by omega) (by omega), Int.tdiv_eq_ediv (by omega) (by omega)]
    rw [show now0 + N * tb.fillInterval - tb.startTime
          = (now0 - tb.startTime) + N * tb.fillInterval by ring]
    rw [Int.add_mul_ediv_right _ _ (by omega : tb.fillInterval ≠ 0)]
  simp only [Bucket.available, htick]
  unfold adjustavailableTokens
  simp only [hA, ← hT, add_sub_cancel_left, zero_add]
  rw [Int.min_def]
  split_ifs <;> simp_all
  all_goals omega

/-- C6 (witness): a drained `NewBucket(5ns, 10)` bucket advanced by 3
fill intervals reports `min(3, 10) = 3` available tokens. -/
theorem C6_witness :
    ((0 : Int) < 5 ∧ (0 : Int) < 10 ∧ (⟨0, 10, 1, 5, 0, 0⟩ : Bucket).availableTokens = 0 ∧
      (⟨0, 10, 1, 5, 0, 0⟩ : Bucket).latestTick = currentTick ⟨0, 10, 1, 5, 0, 0⟩ 2 ∧
      (1 : Int) ≤ 3) ∧
    (Bucket.available ⟨0, 10, 1, 5, 0, 0⟩ (2 + 3 * 5)).2 =
      min (3 * (⟨0, 10, 1, 5, 0, 0⟩ : Bucket).quantum) (⟨0, 10, 1, 5, 0, 0⟩ : Bucket).capacity :=
  ⟨⟨by decide, by decide, by decide, by decide, by decide⟩,
    C6_refill_clamped ⟨0, 10, 1, 5, 0, 0⟩ 2 3 (by decide) (by decide) (by decide)
      (by decide) (by decide) (by decide)⟩

/-- C10: the internal `available(now)` is idempotent — a second call at
the same `now` returns the same value and leaves the bucket state
exactly as after the first call. -/
theorem C10_available_idempotent (tb : Bucket) (now : Int)
    (hnow : tb.startTime ≤ now) :
    (Bucket.available (tb.available now).1 now).2 = (tb.available now).2 ∧
    (Bucket.available (tb.available now).1 now).1 = (tb.available now).1 := by
  simp [Bucket.available, currentTick_adjust, adjust_idem]

/-- C10 (witness): idempotence of `available` at time 7 on a fresh
`NewBucket(2ns, 10)` bucket. -/
theorem C10_witness :
    (⟨0, 10, 1, 2, 10, 0⟩ : Bucket).startTime ≤ 7 ∧
    (Bucket.available (Bucket.available ⟨0, 10, 1, 2, 10, 0⟩ 7).1 7).2 =
      (Bucket.available ⟨0, 10, 1, 2, 10, 0⟩ 7).2 :=
  ⟨by decide, (C10_available_idempotent ⟨0, 10, 1, 2, 10, 0⟩ 7 (by decide)).1⟩

/-- C2 (counterexample): `Mock.Add` neither restricts the popped timers
to fire times `≤ now + d` nor finishes with `now = now + d`.  With
`now = 0`, one pending timer at fire time 10, and `d = 5 ≥ 0`: the
timer fires although `10 > 0 + 5`, and the clock ends at `now = 10`,
not at the target 5. -/
theorem C2_counterexample :
    (0 : Int) ≤ 5 ∧
    (mockAdd ⟨0, [10]⟩ 5).2 = [10] ∧ ¬ ((10 : Int) ≤ 0 + 5) ∧
    (mockAdd ⟨0, [10]⟩ 5).1.now ≠ 0 + 5 := by decide

/-- C2 (amended): `Add(d)` pops pending timers earliest-first: the
popped fire times are a sorted prefix of the timer queue; each pop
requires the clock's current `now` (initially the pre-call time, then
the previously popped fire time) to be strictly before the target
`now + d` — so the last popped fire time itself may exceed the target;
afterwards `now` equals the last popped fire time, or is unchanged when
nothing fired (it is NOT set to the target), and when timers remain
the reached `now` is at or past the target. -/
theorem C2_amended (m : Mock) (d : Int) (hs : List.Sorted (· ≤ ·) m.timers) :
    m.timers = (mockAdd m d).2 ++ (mockAdd m d).1.timers ∧
    List.Sorted (· ≤ ·) (mockAdd m d).2 ∧
    (mockAdd m d).1.now = ((mockAdd m d).2).getLastD m.now ∧
    ((mockAdd m d).2 ≠ [] → m.now < m.now + d) ∧
    (∀ x ∈ ((mockAdd m d).2).dropLast, x < m.now + d) ∧
    ((mockAdd m d).1.timers ≠ [] → ¬ (mockAdd m d).1.now < m.now + d) := by
  obtain ⟨h1, h2, h3, h4, h5⟩ := mockAddLoop_spec (m.now + d) m.timers m.now
  refine ⟨h1, ?_, h2, h3, h4, h5⟩
  have hsub : List.Sublist (mockAdd m d).2 m.timers := by
    conv_rhs => rw [h1]
    exact List.sublist_append_left _ _
  exact hs.sublist hsub

/-- C2 (witness): the amended theorem instantiated on the
counterexample's clock: the final `now` is the last popped fire time. -/
theorem C2_witness :
    List.Sorted (· ≤ ·) (Mock.timers ⟨0, [10]⟩) ∧
    (mockAdd ⟨0, [10]⟩ 5).1.now = ((mockAdd ⟨0, [10]⟩ 5).2).getLastD 0 :=
  ⟨by decide, (C2_amended ⟨0, [10]⟩ 5 (by decide)).2.2.1⟩

/-- C4 (counterexample): `New(-1)` returns a limiter (with a negative
`perRequest` and a positive `maxSlack`) instead of failing: no
construction-time validation of `rate ≤ 0` exists. -/
theorem C4_counterexample :
    newLimiter (-1) = some ⟨none, 0, -1000000000, 10000000000⟩ := by decide

/-- C4 (amended): the smoothing-limiter constructor performs no rate
validation: construction fails (a division-by-zero panic) exactly when
`rate = 0`; for every other rate — negative rates included — it returns
the limiter with `perRequest = 1e9 / rate` and
`maxSlack = -10e9 / rate` (Go truncated division). -/
theorem C4_amended (rate : Int) :
    (newLimiter rate = none ↔ rate = 0) ∧
    (rate ≠ 0 → newLimiter rate =
      some ⟨none, 0, (1000000000 : Int).tdiv rate, ((-10 : Int) * 1000000000).tdiv rate⟩) := by
  unfold newLimiter
  constructor
  · split_ifs with h <;> simp [h]
  · intro h
    rw [if_neg h]

/-- C4 (witness): the amended theorem applied at `rate = -1`. -/
theorem C4_witness :
    ((-1 : Int) ≠ 0) ∧ newLimiter (-1) =
      some ⟨none, 0, (1000000000 : Int).tdiv (-1), ((-10 : Int) * 1000000000).tdiv (-1)⟩ :=
  ⟨by decide, (C4_amended (-1)).2 (by decide)⟩

/-- C7: for every successfully constructed bucket and every sequence of
operations (`Take`, `TakeMaxDuration`, `TakeAvailable`, `Wait`,
`WaitMaxDuration`, `Available`) at arbitrary clock readings, the
invariant `availableTokens ≤ capacity` holds after every operation. -/
theorem C7_capacity_invariant (fillInterval capacity quantum now0 : Int) (tb : Bucket)
    (h : NewBucketWithQuantumAndClock fillInterval capacity quantum now0 = some tb)
    (ops : List BOp) :
    (applyBOps tb ops).availableTokens ≤ (applyBOps tb ops).capacity := by
  have h0 : tb.availableTokens ≤ tb.capacity := by
    unfold NewBucketWithQuantumAndClock at h
    split_ifs at h <;> simp_all
    rw [← h]
  exact applyBOps_inv ops tb h0

/-- C7 (witness): the invariant on a fresh `NewBucket(1ns, 10)` after a
`TakeAvailable`, a `Take`, and an `Available`. -/
theorem C7_witness :
    NewBucketWithQuantumAndClock 1 10 1 0 = some ⟨0, 10, 1, 1, 10, 0⟩ ∧
    (applyBOps ⟨0, 10, 1, 1, 10, 0⟩
        [BOp.takeAvail 0 4, BOp.takeOp 2 9, BOp.availOp 7]).availableTokens ≤
      (applyBOps ⟨0, 10, 1, 1, 10, 0⟩
        [BOp.takeAvail 0 4, BOp.takeOp 2 9, BOp.availOp 7]).capacity :=
  ⟨by decide, C7_capacity_invariant 1 10 1 0 ⟨0, 10, 1, 1, 10, 0⟩ (by decide)
    [BOp.takeAvail 0 4, BOp.takeOp 2 9, BOp.availOp 7]⟩

/-- C8: for a limiter built by `New(rate)` with positive rate — with or
without the `WithoutSlack` option, both of which give `maxSlack ≤ 0` —
after every completed `Take` call (any history of prior calls at any
clock readings) the invariant `maxSlack ≤ sleepFor` holds, and a `Take`
that slept leaves `sleepFor = 0`. -/
theorem C8_slack_invariant (rate : Int) (l0 : Limiter) (hr : 0 < rate)
    (hl : newLimiter rate = some l0 ∨
          (∃ l1, newLimiter rate = some l1 ∧ l0 = withoutSlackOption l1))
    (nows : List Int) (now : Int) :
    (limiterTake (limiterRun l0 nows) now).limiter.maxSlack ≤
      (limiterTake (limiterRun l0 nows) now).limiter.sleepFor ∧
    ((limiterTake (limiterRun l0 nows) now).slept > 0 →
      (limiterTake (limiterRun l0 nows) now).limiter.sleepFor = 0) := by
  have hnew : ∀ l1, newLimiter rate = some l1 → l1.maxSlack ≤ 0 ∧ l1.sleepFor = 0 := by
    intro l1 h
    unfold newLimiter at h
    rw [if_neg (by omega)] at h
    simp only [Option.some.injEq] at h
    subst h
    refine ⟨?_, rfl⟩
    show ((-10 : Int) * 1000000000).tdiv rate ≤ 0
    rw [show ((-10 : Int) * 1000000000) = -(10 * 1000000000) by ring, Int.neg_tdiv]
    have := Int.tdiv_nonneg (by omega : (0 : Int) ≤ 10 * 1000000000) (by omega : (0 : Int) ≤ rate)
    omega
  have h0 : l0.maxSlack ≤ 0 ∧ l0.sleepFor = 0 := by
    rcases hl with h | ⟨l1, h, rfl⟩
    · exact hnew l0 h
    · exact ⟨le_refl 0, (hnew l1 h).2⟩
  have hrun := limiterRun_inv nows l0 h0.1 (by omega)
  exact ⟨(limiterTake_inv _ now hrun.1 hrun.2).2.1, (limiterTake_inv _ now hrun.1 hrun.2).2.2⟩

/-- C8 (witness): the invariant after two prior `Take`s and a third
call on the default `New(100)` limiter. -/
theorem C8_witness :
    ((0 : Int) < 100 ∧ newLimiter 100 = some ⟨none, 0, 10000000, -100000000⟩) ∧
    (limiterTake (limiterRun ⟨none, 0, 10000000, -100000000⟩ [0, 0]) 0).limiter.maxSlack ≤
      (limiterTake (limiterRun ⟨none, 0, 10000000, -100000000⟩ [0, 0]) 0).limiter.sleepFor :=
  ⟨⟨by decide, by decide⟩,
    (C8_slack_invariant 100 ⟨none, 0, 10000000, -100000000⟩ (by decide)
      (Or.inl (by decide)) [0, 0] 0).1⟩

/-- C9: the fresh `New(100)` limiter has `perRequest = 10ms`; its first
`Take` at any time `t0` returns `t0` without sleeping, and a second
`Take` with no clock time elapsed sleeps exactly 10ms and returns
`t0 + 10ms` (times in nanoseconds). -/
theorem C9_scenario_b (t0 : Int) :
    ∃ l, newLimiter 100 = some l ∧ l.perRequest = 10000000 ∧
      (limiterTake l t0).ret = t0 ∧ (limiterTake l t0).slept = 0 ∧
      (limiterTake (limiterTake l t0).limiter t0).slept = 10000000 ∧
      (limiterTake (limiterTake l t0).limiter t0).ret = t0 + 10000000 := by
  refine ⟨⟨none, 0, 10000000, -100000000⟩, by decide, rfl, rfl, rfl, ?_, ?_⟩ <;>
    simp [limiterTake]

/-- C5: whenever `NewBucketWithRate(rate, capacity)` returns a bucket
for a positive rate, the realized `Rate()` is within 1% relative error
of the requested rate; the search itself (embedded in
`rateSearchLoop`/`nextQuantum`) starts at quantum 1, skips candidates
with non-positive `fillInterval = 1e9 * quantum / rate`, grows the
quantum by `q * 11 / 10` forced to `q + 1` on truncation stall, and
gives up (a panic, modelled as `none`) at the `2 ^ 50` bound. -/
theorem C5_rate_within_margin (rate : ℚ) (capacity now : Int) (tb : Bucket)
    (hr : 0 < rate)
    (h : NewBucketWithRateAndClock rate capacity now = some tb) :
    ratAbs (tb.Rate - rate) / rate ≤ rateMargin := by
  unfold NewBucketWithRateAndClock at h
  cases hq : NewBucketWithQuantumAndClock 1 capacity 1 now with
  | none => rw [hq] at h; exact absurd h (by simp)
  | some tb0 =>
    rw [hq] at h
    cases hs : rateSearchLoop rate (2 ^ 50) 1 with
    | none => rw [hs] at h; exact absurd h (by simp)
    | some p =>
      obtain ⟨fi, q⟩ := p
      rw [hs] at h
      simp only [Option.some.injEq] at h
      subst h
      have hsound := rateSearchLoop_sound rate (2 ^ 50) 1 fi q hs
      simp only [Bucket.Rate]
      push_cast
      exact hsound.2

/-- C5 (witness): `NewBucketWithRate(1, 5)` settles at quantum 1 and
fill interval 1e9 ns, realizing the requested rate exactly. -/
theorem C5_witness :
    (0 : ℚ) < 1 ∧ ratAbs (Bucket.Rate ⟨0, 5, 1, 1000000000, 5, 0⟩ - 1) / 1 ≤ rateMargin :=
  ⟨by norm_num,
    C5_rate_within_margin 1 5 0 ⟨0, 5, 1, 1000000000, 5, 0⟩ (by norm_num) (by
      have h : rateSearchLoop 1 1125899906842624 1 = some (1000000000, 1) := by
        show rateSearchLoop 1 (1125899906842623 + 1) 1 = some (1000000000, 1)
        rw [rateSearchLoop]
        norm_num [ratTrunc, ratAbs, rateMargin, Rat.num_ofNat, Rat.den_ofNat]
      rw [NewBucketWithRateAndClock]
      norm_num [h, NewBucketWithQuantumAndClock])⟩
